import Mathlib

/-!
Shallow embedding of the `golinks` link registry (src/db.ts, src/server.ts,
src/cli.ts) and proofs about its operations.

Modelling conventions:
* The SQLite table `links` is a `List GoLink` kept in rowid (insertion) order,
  together with the `AUTOINCREMENT` counter `nextId`.
* SQLite `CURRENT_TIMESTAMP` strings compare chronologically (ISO-like text
  under the BINARY collation), so timestamps are abstracted as `Nat` clock
  values supplied explicitly as a `now` argument; within one SQL statement both
  `created_at` and `updated_at` defaults see the same `now`.
* A nullable SQL column is an `Option`; the JavaScript expression
  `description || null` (falsy coercion) is `truthyString`.
* Operations are pure state transformers; a SQLite statement that throws
  (UNIQUE-constraint violation on INSERT) is an `Except.error` paired with the
  unchanged state, since an aborted statement leaves the table untouched.
* `SELECT ... ORDER BY created_at DESC` and JavaScript `Array.prototype.sort`
  (stable per the ECMAScript specification) are modelled with the stable
  `List.mergeSort` over the scan order.
-/

/-- Embedding of the `GoLink` interface of src/db.ts: one row of the `links`
table. `description` is the nullable TEXT column; timestamps are abstract
clock values. -/
structure GoLink where
  id : Nat
  shortcut : String
  url : String
  description : Option String
  created_at : Nat
  updated_at : Nat
  click_count : Nat
deriving Repr, DecidableEq

/-- Embedding of the persistent state behind the `GoLinksDB` class of
src/db.ts: the `links` table in rowid (insertion) order plus the
`AUTOINCREMENT` counter. -/
structure GoLinksDB where
  rows : List GoLink
  nextId : Nat
deriving Repr, DecidableEq

/-- Embedding of the error thrown by `addLink` when the INSERT hits the
`shortcut TEXT UNIQUE NOT NULL` constraint (src/db.ts, table schema in
`init`). -/
inductive DBError where
  | DuplicateShortcut
deriving Repr, DecidableEq

/-- Embedding of the JavaScript falsy coercion on optional strings: both the
`description || null` argument coercion in `addLink`/`updateLink` (src/db.ts)
and the `if (shortcut && url)` guards in src/server.ts treat the empty string
like an absent value. -/
def truthyString (o : Option String) : Option String :=
  match o with
  | some s => if s = "" then none else some s
  | none => none

/-- Row built by the INSERT of `addLink` (src/db.ts): `id` from
AUTOINCREMENT, `created_at = updated_at = CURRENT_TIMESTAMP`,
`click_count` its DEFAULT 0, `description` after the `|| null` coercion. -/
def newLink (db : GoLinksDB) (shortcut url : String) (description : Option String)
    (now : Nat) : GoLink :=
  { id := db.nextId, shortcut := shortcut, url := url,
    description := truthyString description,
    created_at := now, updated_at := now, click_count := 0 }

/-- Embedding of `GoLinksDB.addLink` (src/db.ts):
`INSERT INTO links (shortcut, url, description) VALUES (?, ?, ?)` with
`description || null`. The UNIQUE constraint on `shortcut` makes the INSERT
throw when a row with that shortcut exists, leaving the table unchanged;
otherwise the row is appended with the schema defaults. -/
def addLink (db : GoLinksDB) (shortcut url : String) (description : Option String)
    (now : Nat) : Except DBError Unit × GoLinksDB :=
  if db.rows.any (fun r => r.shortcut == shortcut) then
    (Except.error DBError.DuplicateShortcut, db)
  else
    (Except.ok (),
     { rows := db.rows ++ [newLink db shortcut url description now],
       nextId := db.nextId + 1 })

/-- Embedding of `GoLinksDB.getLink` (src/db.ts):
`SELECT * FROM links WHERE shortcut = ?` with `.get`, i.e. the first row in
scan order whose `shortcut` column equals the argument (SQLite TEXT `=` is
case-sensitive BINARY comparison), `null` when none matches. -/
def getLink (db : GoLinksDB) (shortcut : String) : Option GoLink :=
  db.rows.find? (fun r => r.shortcut == shortcut)

/-- Comparison used by `getAllLinks`: row `a` may precede row `b` under
`ORDER BY created_at DESC` exactly when `b.created_at ≤ a.created_at`. -/
def createdAtDesc (a b : GoLink) : Bool :=
  decide (b.created_at ≤ a.created_at)

/-- Embedding of `GoLinksDB.getAllLinks` (src/db.ts):
`SELECT * FROM links ORDER BY created_at DESC` with `.all`, modelled as the
stable `mergeSort` of the table scan (rowid order) by descending
`created_at`. -/
def getAllLinks (db : GoLinksDB) : List GoLink :=
  db.rows.mergeSort createdAtDesc

/-- Embedding of `GoLinksDB.updateLink` (src/db.ts):
`UPDATE links SET url = ?, description = ?, updated_at = CURRENT_TIMESTAMP
WHERE shortcut = ?` with `description || null`, returning `changes > 0`,
i.e. whether some row matched the WHERE clause. -/
def updateLink (db : GoLinksDB) (shortcut url : String) (description : Option String)
    (now : Nat) : Bool × GoLinksDB :=
  (db.rows.any (fun r => r.shortcut == shortcut),
   { db with rows := db.rows.map (fun r =>
      if r.shortcut == shortcut then
        { r with url := url, description := truthyString description,
                 updated_at := now }
      else r) })

/-- Embedding of `GoLinksDB.deleteLink` (src/db.ts):
`DELETE FROM links WHERE shortcut = ?`, returning `changes > 0`. -/
def deleteLink (db : GoLinksDB) (shortcut : String) : Bool × GoLinksDB :=
  (db.rows.any (fun r => r.shortcut == shortcut),
   { db with rows := db.rows.filter (fun r => !(r.shortcut == shortcut)) })

/-- Embedding of `GoLinksDB.incrementClickCount` (src/db.ts):
`UPDATE links SET click_count = click_count + 1 WHERE shortcut = ?`; rows
that do not match the WHERE clause are untouched, and no error is raised when
nothing matches. -/
def incrementClickCount (db : GoLinksDB) (shortcut : String) : GoLinksDB :=
  { db with rows := db.rows.map (fun r =>
      if r.shortcut == shortcut then { r with click_count := r.click_count + 1 }
      else r) }

/-- HTTP method of an inbound request, as far as src/server.ts inspects it. -/
inductive HttpMethod where
  | GET
  | POST
deriving Repr, DecidableEq

/-- The parts of an inbound HTTP request that `handleRequest` (src/server.ts)
reads: the method, `url.pathname`, and the `shortcut`/`url`/`description`
form fields (absent fields are `none`, matching `formData.get(...) ===
null`). -/
structure HttpRequest where
  method : HttpMethod
  pathname : String
  formShortcut : Option String
  formUrl : Option String
  formDescription : Option String
deriving Repr, DecidableEq

/-- The observable part of a `Response` built by `handleRequest`
(src/server.ts): the status code and the `Location` header when set. The
HTML/text body is presentation, outside the registry core. -/
structure HttpResponse where
  status : Nat
  location : Option String
deriving Repr, DecidableEq

/-- Embedding of `handleRequest` (src/server.ts). Control flow follows the
source exactly: a GET for the exact path `/_` renders the management page
(status 200); a POST to `/_/add` with truthy `shortcut` and `url` form
fields calls `addLink` (302 back to `/_` on success, 400 on a caught error)
and answers 400 without touching the store when either field is missing or
empty; a POST to `/_/delete` with a truthy `shortcut` calls `deleteLink` and
302s back to `/_`; every other request takes `pathname.slice(1)` as a
shortcut — when it is non-empty and `getLink` hits, the click count is
incremented and a 302 to the stored url is returned, otherwise 404. -/
def handleRequest (db : GoLinksDB) (req : HttpRequest) (now : Nat) :
    HttpResponse × GoLinksDB :=
  if req.pathname = "/_" ∧ req.method = HttpMethod.GET then
    ({ status := 200, location := none }, db)
  else if req.pathname = "/_/add" ∧ req.method = HttpMethod.POST then
    match truthyString req.formShortcut, truthyString req.formUrl with
    | some shortcut, some url =>
      match addLink db shortcut url req.formDescription now with
      | (Except.ok _, db') => ({ status := 302, location := some "/_" }, db')
      | (Except.error _, _) => ({ status := 400, location := none }, db)
    | _, _ => ({ status := 400, location := none }, db)
  else if req.pathname = "/_/delete" ∧ req.method = HttpMethod.POST then
    match truthyString req.formShortcut with
    | some shortcut =>
      ({ status := 302, location := some "/_" }, (deleteLink db shortcut).2)
    | none => ({ status := 400, location := none }, db)
  else
    let shortcut := req.pathname.drop 1
    if shortcut ≠ "" then
      match getLink db shortcut with
      | some link =>
        ({ status := 302, location := some link.url },
         incrementClickCount db shortcut)
      | none => ({ status := 404, location := none }, db)
    else
      ({ status := 404, location := none }, db)

/-- Embedding of the total-clicks reduction shared by the stats branch of
src/cli.ts and the management page of src/server.ts:
`links.reduce((sum, link) => sum + link.click_count, 0)`. -/
def totalClicksOf (links : List GoLink) : Nat :=
  links.foldl (fun sum link => sum + link.click_count) 0

/-- Comparator of the stats branch of src/cli.ts:
`(a, b) => b.click_count - a.click_count` sorts by descending click count;
`a` may precede `b` exactly when `b.click_count ≤ a.click_count`. -/
def clickCountDesc (a b : GoLink) : Bool :=
  decide (b.click_count ≤ a.click_count)

/-- Embedding of `links.sort((a, b) => b.click_count - a.click_count)[0]`
from the stats branch of src/cli.ts: the head of the stable descending sort
by click count (ECMAScript `Array.prototype.sort` is stable), `none` for an
empty list (`[0]` of an empty array is `undefined`). -/
def mostClickedOf (links : List GoLink) : Option GoLink :=
  (links.mergeSort clickCountDesc).head?

/-- The three aggregates printed by the stats branch of src/cli.ts. -/
structure Stats where
  totalLinks : Nat
  totalClicks : Nat
  mostClicked : Option GoLink
deriving Repr, DecidableEq

/-- Embedding of the stats branch of src/cli.ts (lines 89–103): total link
count, total clicks, and the most-clicked record when one exists. -/
def computeStats (links : List GoLink) : Stats :=
  { totalLinks := links.length,
    totalClicks := totalClicksOf links,
    mostClicked := mostClickedOf links }

deriving instance DecidableEq for Except

/-! ### General helper lemmas -/

/-- A `find?` that misses means no row matches, so the matching `any` is
false. -/
theorem any_shortcut_eq_false_of_getLink_none (db : GoLinksDB) (sc : String)
    (h : getLink db sc = none) :
    (db.rows.any (fun r => r.shortcut == sc)) = false := by
  rw [← Bool.not_eq_true, List.any_eq_true]
  rintro ⟨x, hx, hp⟩
  exact (List.find?_eq_none.mp h) x hx hp

/-- A `find?` hit makes the matching `any` true. -/
theorem any_shortcut_eq_true_of_getLink_some (db : GoLinksDB) (sc : String)
    (r : GoLink) (h : getLink db sc = some r) :
    (db.rows.any (fun r => r.shortcut == sc)) = true := by
  unfold getLink at h
  have hmem := List.mem_of_find?_eq_some h
  have hp := List.find?_some h
  exact List.any_eq_true.mpr ⟨r, hmem, hp⟩

/-! ### C1 — duplicate add fails and changes nothing -/

/-- C1: for every store state and every shortcut already present as a live
record, `addLink` with that shortcut fails with `DuplicateShortcut`, the
whole store (hence the existing record's url, description, timestamps and
click count) is unchanged by the failed call, and the existing record is
still retrievable unchanged. -/
theorem addLink_duplicate_fails_unchanged (db : GoLinksDB) (sc u : String)
    (d : Option String) (now : Nat) (r : GoLink) (h : getLink db sc = some r) :
    (addLink db sc u d now).1 = Except.error DBError.DuplicateShortcut ∧
    (addLink db sc u d now).2 = db ∧
    getLink (addLink db sc u d now).2 sc = some r := by
  have hany := any_shortcut_eq_true_of_getLink_some db sc r h
  refine ⟨?_, ?_, ?_⟩ <;> simp [addLink, hany, h]

/-- Witness for C1: a concrete store holding `gh` rejects a second `gh`. -/
theorem addLink_duplicate_fails_unchanged_witness :
    (addLink ⟨[⟨1, "gh", "https://github.com", none, 3, 3, 5⟩], 2⟩ "gh"
        "https://example.com" none 9).1 = Except.error DBError.DuplicateShortcut ∧
    (addLink ⟨[⟨1, "gh", "https://github.com", none, 3, 3, 5⟩], 2⟩ "gh"
        "https://example.com" none 9).2 =
      ⟨[⟨1, "gh", "https://github.com", none, 3, 3, 5⟩], 2⟩ ∧
    getLink (addLink ⟨[⟨1, "gh", "https://github.com", none, 3, 3, 5⟩], 2⟩ "gh"
        "https://example.com" none 9).2 "gh" =
      some ⟨1, "gh", "https://github.com", none, 3, 3, 5⟩ :=
  addLink_duplicate_fails_unchanged ⟨[⟨1, "gh", "https://github.com", none, 3, 3, 5⟩], 2⟩
    "gh" "https://example.com" none 9 ⟨1, "gh", "https://github.com", none, 3, 3, 5⟩
    (by decide)

/-! ### C2 — add then get round trip -/

/-- C2: for every valid (non-empty) shortcut and url with the shortcut not
already present, `addLink` succeeds and a following `getLink` returns a
record with exactly that url, `click_count = 0`, and
`created_at = updated_at` (both the insertion time). -/
theorem addLink_then_getLink (db : GoLinksDB) (sc u : String) (d : Option String)
    (now : Nat) (hsc : sc ≠ "") (hu : u ≠ "") (habsent : getLink db sc = none) :
    (addLink db sc u d now).1 = Except.ok () ∧
    ∃ r, getLink (addLink db sc u d now).2 sc = some r ∧
      r.url = u ∧ r.click_count = 0 ∧ r.created_at = now ∧ r.updated_at = now := by
  have hany := any_shortcut_eq_false_of_getLink_none db sc habsent
  refine ⟨by simp [addLink, hany], newLink db sc u d now, ?_, rfl, rfl, rfl, rfl⟩
  unfold getLink at habsent ⊢
  simp [addLink, hany, List.find?_append, habsent, newLink]

/-- Witness for C2: adding `gh` to the empty store and reading it back. -/
theorem addLink_then_getLink_witness :
    (addLink ⟨[], 1⟩ "gh" "https://github.com" none 4).1 = Except.ok () ∧
    ∃ r, getLink (addLink ⟨[], 1⟩ "gh" "https://github.com" none 4).2 "gh" = some r ∧
      r.url = "https://github.com" ∧ r.click_count = 0 ∧
      r.created_at = 4 ∧ r.updated_at = 4 :=
  addLink_then_getLink ⟨[], 1⟩ "gh" "https://github.com" none 4
    (by decide) (by decide) (by decide)

/-! ### C3 — empty input is not rejected by the store layer -/

/-- C3 counterexample: calling `addLink` with an empty shortcut and an empty
url on the empty store does not fail with any error — it succeeds and inserts
a record, contradicting the claim that `add` fails with `InvalidInput` and
inserts no record. -/
theorem addLink_empty_input_inserts :
    (addLink ⟨[], 1⟩ "" "" none 0).1 = Except.ok () ∧
    (addLink ⟨[], 1⟩ "" "" none 0).2.rows =
      [{ id := 1, shortcut := "", url := "", description := none,
         created_at := 0, updated_at := 0, click_count := 0 }] := by
  constructor <;> decide

/-- C3 amended: `addLink` itself performs no emptiness validation — with an
empty (unused) shortcut or url it succeeds and appends the row verbatim; the
emptiness rejection lives in the caller: the HTTP add endpoint answers 400
and leaves the store untouched when the posted shortcut or url form field is
empty or missing, without ever calling `addLink`. -/
theorem addLink_no_validation_caller_rejects (db : GoLinksDB) (sc u : String)
    (d : Option String) (now : Nat) (habsent : getLink db sc = none)
    (req : HttpRequest) (hpath : req.pathname = "/_/add")
    (hm : req.method = HttpMethod.POST)
    (hempty : truthyString req.formShortcut = none ∨ truthyString req.formUrl = none) :
    (addLink db sc u d now).1 = Except.ok () ∧
    (addLink db sc u d now).2.rows = db.rows ++ [newLink db sc u d now] ∧
    handleRequest db req now = ({ status := 400, location := none }, db) := by
  have hany := any_shortcut_eq_false_of_getLink_none db sc habsent
  refine ⟨by simp [addLink, hany], by simp [addLink, hany], ?_⟩
  rcases hempty with he | he
  · simp [handleRequest, hpath, hm, he]
  · cases hs : truthyString req.formShortcut <;>
      simp [handleRequest, hpath, hm, he, hs]

/-- Witness for the amended C3: adding the empty shortcut with empty url
succeeds on the empty store, while posting an empty shortcut form field to
`/_/add` yields 400 and no state change. -/
theorem addLink_no_validation_caller_rejects_witness :
    (addLink ⟨[], 1⟩ "" "" none 0).1 = Except.ok () ∧
    (addLink ⟨[], 1⟩ "" "" none 0).2.rows =
      ([] : List GoLink) ++ [newLink ⟨[], 1⟩ "" "" none 0] ∧
    handleRequest ⟨[], 1⟩ ⟨HttpMethod.POST, "/_/add", some "", some "https://x", none⟩ 0 =
      ({ status := 400, location := none }, ⟨[], 1⟩) :=
  addLink_no_validation_caller_rejects ⟨[], 1⟩ "" "" none 0 (by decide)
    ⟨HttpMethod.POST, "/_/add", some "", some "https://x", none⟩ rfl rfl
    (Or.inl (by decide))

/-! ### C4 — request dispatch of the HTTP handler -/

/-- Looking up a shortcut after incrementing it bumps exactly the retrieved
record's click count: the UPDATE of `incrementClickCount` preserves the
`shortcut` column, so the first matching row is the same row, with
`click_count` one higher. -/
theorem getLink_incrementClickCount (db : GoLinksDB) (sc : String) :
    getLink (incrementClickCount db sc) sc =
      (getLink db sc).map (fun r => { r with click_count := r.click_count + 1 }) := by
  show List.find? _ (db.rows.map _) = _
  rw [List.find?_map]
  have hcomp : ((fun r : GoLink => r.shortcut == sc) ∘
      (fun r : GoLink =>
        if r.shortcut == sc then { r with click_count := r.click_count + 1 } else r)) =
      (fun r : GoLink => r.shortcut == sc) := by
    funext r
    by_cases h : r.shortcut = sc <;> simp [h]
  rw [hcomp]
  unfold getLink
  cases hf : List.find? (fun r : GoLink => r.shortcut == sc) db.rows with
  | none => rfl
  | some r =>
    have hp : r.shortcut = sc := by simpa using List.find?_some hf
    simp [hp]

/-- C4 counterexample: the handler does not route every path beginning with
the reserved prefix `/_` to the management surface — a GET for `/_x` with a
stored shortcut `_x` is resolved as a shortcut lookup and redirected (302)
to its url with the click counted; and the empty root path is not routed to
the management surface either — it yields a plain 404. -/
theorem handleRequest_reserved_prefix_and_root :
    (handleRequest ⟨[⟨1, "_x", "https://reserved.example", none, 3, 3, 0⟩], 2⟩
        ⟨HttpMethod.GET, "/_x", none, none, none⟩ 9) =
      ({ status := 302, location := some "https://reserved.example" },
       ⟨[⟨1, "_x", "https://reserved.example", none, 3, 3, 1⟩], 2⟩) ∧
    (handleRequest ⟨[], 1⟩ ⟨HttpMethod.GET, "/", none, none, none⟩ 9) =
      ({ status := 404, location := none }, ⟨[], 1⟩) := by
  constructor <;> decide

/-- C4 amended: for a GET request, exactly the path `/_` is routed to the
management surface (status 200, store untouched); any other path is treated
as a shortcut lookup on `pathname.slice(1)` — the empty root segment yields
404 with the store untouched, a known shortcut yields a 302 whose `Location`
is the stored url with exactly that record's click count incremented, and an
unknown shortcut yields 404 with the store untouched. (Paths merely
beginning with `/_`, such as `/_x`, are shortcut lookups; only the exact
paths `/_/add` and `/_/delete`, and only under POST, reach the other
management branches.) -/
theorem handleRequest_get_dispatch (db : GoLinksDB) (req : HttpRequest) (now : Nat)
    (hm : req.method = HttpMethod.GET) :
    (req.pathname = "/_" →
      handleRequest db req now = ({ status := 200, location := none }, db)) ∧
    (req.pathname ≠ "/_" →
      (req.pathname.drop 1 = "" →
        handleRequest db req now = ({ status := 404, location := none }, db)) ∧
      (∀ link, req.pathname.drop 1 ≠ "" →
        getLink db (req.pathname.drop 1) = some link →
        handleRequest db req now =
          ({ status := 302, location := some link.url },
           incrementClickCount db (req.pathname.drop 1)) ∧
        getLink (incrementClickCount db (req.pathname.drop 1)) (req.pathname.drop 1) =
          some { link with click_count := link.click_count + 1 }) ∧
      (getLink db (req.pathname.drop 1) = none →
        handleRequest db req now = ({ status := 404, location := none }, db))) := by
  constructor
  · intro hp
    simp [handleRequest, hp, hm]
  · intro hp
    refine ⟨?_, ?_, ?_⟩
    · intro hdrop
      simp [handleRequest, hp, hm, hdrop]
    · intro link hdrop hget
      refine ⟨?_, ?_⟩
      · simp [handleRequest, hp, hm, hdrop, hget]
      · rw [getLink_incrementClickCount, hget]
        rfl
    · intro hget
      by_cases hdrop : req.pathname.drop 1 = "" <;>
        simp [handleRequest, hp, hm, hdrop, hget]

/-- Witness for the amended C4: on a store holding `gh`, a GET for `/gh`
redirects with the stored url and bumps the click count. -/
theorem handleRequest_get_dispatch_witness :
    handleRequest ⟨[⟨1, "gh", "https://github.com", none, 3, 3, 0⟩], 2⟩
        ⟨HttpMethod.GET, "/gh", none, none, none⟩ 9 =
      ({ status := 302, location := some "https://github.com" },
       incrementClickCount ⟨[⟨1, "gh", "https://github.com", none, 3, 3, 0⟩], 2⟩ "gh") ∧
    getLink (incrementClickCount ⟨[⟨1, "gh", "https://github.com", none, 3, 3, 0⟩], 2⟩ "gh")
        "gh" = some ⟨1, "gh", "https://github.com", none, 3, 3, 1⟩ :=
  ((handleRequest_get_dispatch ⟨[⟨1, "gh", "https://github.com", none, 3, 3, 0⟩], 2⟩
      ⟨HttpMethod.GET, "/gh", none, none, none⟩ 9 rfl).2 (by decide)).2.1
    ⟨1, "gh", "https://github.com", none, 3, 3, 0⟩ (by decide) (by decide)

/-! ### C5 — listing order -/

/-- The comparison of `getAllLinks` is transitive. -/
theorem createdAtDesc_trans : ∀ a b c : GoLink, createdAtDesc a b = true →
    createdAtDesc b c = true → createdAtDesc a c = true := by
  intro a b c hab hbc
  simp only [createdAtDesc, decide_eq_true_eq] at *
  omega

/-- The comparison of `getAllLinks` is total. -/
theorem createdAtDesc_total : ∀ a b : GoLink,
    (createdAtDesc a b || createdAtDesc b a) = true := by
  intro a b
  simp only [createdAtDesc, Bool.or_eq_true, decide_eq_true_eq]
  omega

/-- C5: `getAllLinks` returns exactly the live records (a permutation of the
table), ordered by `created_at` descending, and stably: the records carrying
any fixed `created_at` value appear in their table (insertion) order. -/
theorem getAllLinks_sorted_stable (db : GoLinksDB) :
    (getAllLinks db).Perm db.rows ∧
    List.Pairwise (fun a b => b.created_at ≤ a.created_at) (getAllLinks db) ∧
    ∀ t : Nat, (getAllLinks db).filter (fun r => r.created_at == t) =
      db.rows.filter (fun r => r.created_at == t) := by
  refine ⟨List.mergeSort_perm _ _, ?_, ?_⟩
  · exact (List.sorted_mergeSort createdAtDesc_trans createdAtDesc_total db.rows).imp
      (fun h => by simpa [createdAtDesc] using h)
  · intro t
    have hself : (db.rows.filter (fun r => r.created_at == t)).filter
        (fun r => r.created_at == t) = db.rows.filter (fun r => r.created_at == t) :=
      List.filter_eq_self.mpr (fun a ha => by
        have hpa := List.of_mem_filter ha
        exact hpa)
    have hmem : ∀ x ∈ db.rows.filter (fun r => r.created_at == t),
        x.created_at = t := by
      intro x hx
      simpa using List.of_mem_filter hx
    have hpw : List.Pairwise (fun a b => createdAtDesc a b = true)
        (db.rows.filter (fun r => r.created_at == t)) :=
      List.pairwise_of_forall_mem_list (fun a ha b hb => by
        simp [createdAtDesc, hmem a ha, hmem b hb])
    have hsub : (db.rows.filter (fun r => r.created_at == t)).Sublist (getAllLinks db) :=
      List.sublist_mergeSort createdAtDesc_trans createdAtDesc_total hpw
        (List.filter_sublist _)
    have hsub2 : (db.rows.filter (fun r => r.created_at == t)).Sublist
        ((getAllLinks db).filter (fun r => r.created_at == t)) := by
      have := List.Sublist.filter (fun r : GoLink => r.created_at == t) hsub
      rwa [hself] at this
    have hperm : ((getAllLinks db).filter (fun r => r.created_at == t)).Perm
        (db.rows.filter (fun r => r.created_at == t)) :=
      List.Perm.filter _ (List.mergeSort_perm _ _)
    exact (hsub2.eq_of_length hperm.length_eq.symm).symm

/-! ### C6 / C7 — frame conditions of the WHERE-clause updates -/

/-- A successful `find?` on the shortcut column splits the table into the
earlier rows (which do not match), the found row, and the rest. -/
theorem find?_shortcut_decomp (l : List GoLink) (sc : String) (r : GoLink)
    (h : l.find? (fun x => x.shortcut == sc) = some r) :
    ∃ pre post, l = pre ++ r :: post ∧ ∀ x ∈ pre, (x.shortcut == sc) = false := by
  induction l with
  | nil => simp at h
  | cons a l ih =>
    rw [List.find?_cons] at h
    cases ha : (a.shortcut == sc) with
    | true =>
      rw [ha] at h
      simp only [Option.some.injEq] at h
      subst h
      exact ⟨[], l, rfl, by simp⟩
    | false =>
      rw [ha] at h
      obtain ⟨pre, post, hl, hpre⟩ := ih h
      refine ⟨a :: pre, post, by rw [hl, List.cons_append], ?_⟩
      intro x hx
      rcases List.mem_cons.mp hx with hxa | hx
      · rw [hxa]; exact ha
      · exact hpre x hx

/-- Mapping a conditional rewrite over a table whose shortcuts are pairwise
distinct touches exactly the row found by the WHERE clause: the earlier rows
do not match by the `find?` split, and the later rows cannot match because
their shortcut would collide with the found row's. -/
theorem map_update_row (l : List GoLink) (sc : String) (f : GoLink → GoLink)
    (r : GoLink) (pre post : List GoLink) (hl : l = pre ++ r :: post)
    (hpre : ∀ x ∈ pre, (x.shortcut == sc) = false)
    (hr : (r.shortcut == sc) = true)
    (hnd : l.Pairwise (fun a b => a.shortcut ≠ b.shortcut)) :
    l.map (fun x => if x.shortcut == sc then f x else x) = pre ++ f r :: post := by
  subst hl
  have hrsc : r.shortcut = sc := by simpa using hr
  have hpost : ∀ x ∈ post, (x.shortcut == sc) = false := by
    intro x hx
    have hp : (r :: post).Pairwise (fun a b => a.shortcut ≠ b.shortcut) :=
      List.Pairwise.sublist (List.sublist_append_right pre (r :: post)) hnd
    have hrx : r.shortcut ≠ x.shortcut := List.rel_of_pairwise_cons hp hx
    cases hxsc : (x.shortcut == sc) with
    | false => rfl
    | true =>
      have hxs : x.shortcut = sc := by simpa using hxsc
      exact absurd (hrsc.trans hxs.symm) hrx
  rw [List.map_append, List.map_cons]
  have h1 : pre.map (fun x => if x.shortcut == sc then f x else x) = pre := by
    rw [List.map_congr_left (g := id) (fun x hx => by simp [hpre x hx])]
    exact List.map_id pre
  have h2 : post.map (fun x => if x.shortcut == sc then f x else x) = post := by
    rw [List.map_congr_left (g := id) (fun x hx => by simp [hpost x hx])]
    exact List.map_id post
  rw [h1, h2, if_pos hr]

/-- Rows are unchanged by a conditional rewrite when no row matches. -/
theorem map_update_row_none (l : List GoLink) (sc : String) (f : GoLink → GoLink)
    (h : l.find? (fun x => x.shortcut == sc) = none) :
    l.map (fun x => if x.shortcut == sc then f x else x) = l := by
  have hall := List.find?_eq_none.mp h
  rw [List.map_congr_left (g := id) (fun x hx => by
    have hxf : ¬(x.shortcut == sc) = true := hall x hx
    simp [hxf])]
  exact List.map_id l

/-- C6: `incrementClickCount` on a shortcut with a matching record (under the
table's UNIQUE-shortcut invariant) bumps exactly that record's `click_count`
by 1, leaving its every other field — in particular `updated_at` — and every
other record and the id counter unchanged; with no matching record it is a
complete no-op and raises no error. -/
theorem incrementClickCount_spec (db : GoLinksDB) (sc : String) :
    (getLink db sc = none → incrementClickCount db sc = db) ∧
    (∀ r, getLink db sc = some r → (db.rows.map GoLink.shortcut).Nodup →
      ∃ pre post, db.rows = pre ++ r :: post ∧
        (incrementClickCount db sc).rows =
          pre ++ { r with click_count := r.click_count + 1 } :: post ∧
        (incrementClickCount db sc).nextId = db.nextId) := by
  constructor
  · intro h
    unfold getLink at h
    have hrows := map_update_row_none db.rows sc
      (fun r => { r with click_count := r.click_count + 1 }) h
    show ({ db with rows := _ } : GoLinksDB) = db
    rw [hrows]
  · intro r hfind hnd
    unfold getLink at hfind
    obtain ⟨pre, post, hl, hpre⟩ := find?_shortcut_decomp db.rows sc r hfind
    have hr := List.find?_some hfind
    have hndp : db.rows.Pairwise (fun a b => a.shortcut ≠ b.shortcut) :=
      List.pairwise_map.mp hnd
    exact ⟨pre, post, hl,
      map_update_row db.rows sc (fun r => { r with click_count := r.click_count + 1 })
        r pre post hl hpre hr hndp, rfl⟩

/-- Witness for C6 at a concrete two-row store: incrementing `b` bumps only
the second record. -/
theorem incrementClickCount_spec_witness :
    ∃ pre post,
      ([⟨1, "a", "https://a.example", none, 1, 1, 2⟩,
        ⟨2, "b", "https://b.example", some "d", 2, 2, 5⟩] : List GoLink) =
        pre ++ ⟨2, "b", "https://b.example", some "d", 2, 2, 5⟩ :: post ∧
      (incrementClickCount ⟨[⟨1, "a", "https://a.example", none, 1, 1, 2⟩,
          ⟨2, "b", "https://b.example", some "d", 2, 2, 5⟩], 3⟩ "b").rows =
        pre ++ ⟨2, "b", "https://b.example", some "d", 2, 2, 6⟩ :: post ∧
      (incrementClickCount ⟨[⟨1, "a", "https://a.example", none, 1, 1, 2⟩,
          ⟨2, "b", "https://b.example", some "d", 2, 2, 5⟩], 3⟩ "b").nextId = 3 :=
  (incrementClickCount_spec ⟨[⟨1, "a", "https://a.example", none, 1, 1, 2⟩,
      ⟨2, "b", "https://b.example", some "d", 2, 2, 5⟩], 3⟩ "b").2
    ⟨2, "b", "https://b.example", some "d", 2, 2, 5⟩ (by decide) (by decide)

/-- C7: `updateLink` replaces only the url and the (coerced) description and
refreshes `updated_at` of the matching record, keeping its id, shortcut,
created_at and click_count (under the table's UNIQUE-shortcut invariant) and
every other record; it returns `true` exactly when a record with that
shortcut existed, and with no match it returns `false`, raises no error and
changes no state. -/
theorem updateLink_spec (db : GoLinksDB) (sc u : String) (d : Option String)
    (now : Nat) :
    (getLink db sc = none → updateLink db sc u d now = (false, db)) ∧
    (∀ r, getLink db sc = some r →
      (updateLink db sc u d now).1 = true ∧
      ((db.rows.map GoLink.shortcut).Nodup →
        ∃ pre post, db.rows = pre ++ r :: post ∧
          (updateLink db sc u d now).2.rows =
            pre ++ { r with
                     url := u,
                     description := truthyString d,
                     updated_at := now } :: post ∧
          (updateLink db sc u d now).2.nextId = db.nextId)) := by
  constructor
  · intro h
    have hany := any_shortcut_eq_false_of_getLink_none db sc h
    unfold getLink at h
    have hrows := map_update_row_none db.rows sc
      (fun r => { r with url := u, description := truthyString d, updated_at := now }) h
    show (_, ({ db with rows := _ } : GoLinksDB)) = (false, db)
    rw [hany, hrows]
  · intro r hfind
    refine ⟨any_shortcut_eq_true_of_getLink_some db sc r hfind, ?_⟩
    intro hnd
    unfold getLink at hfind
    obtain ⟨pre, post, hl, hpre⟩ := find?_shortcut_decomp db.rows sc r hfind
    have hr := List.find?_some hfind
    have hndp : db.rows.Pairwise (fun a b => a.shortcut ≠ b.shortcut) :=
      List.pairwise_map.mp hnd
    exact ⟨pre, post, hl,
      map_update_row db.rows sc
        (fun r => { r with url := u, description := truthyString d, updated_at := now })
        r pre post hl hpre hr hndp, rfl⟩

/-- Witness for C7 at a concrete two-row store: updating `a` rewrites only
the first record's url/description/updated_at and reports `true`. -/
theorem updateLink_spec_witness :
    (updateLink ⟨[⟨1, "a", "https://a.example", none, 1, 1, 2⟩,
        ⟨2, "b", "https://b.example", some "d", 2, 2, 5⟩], 3⟩
      "a" "https://new.example" (some "n") 7).1 = true ∧
    ((([⟨1, "a", "https://a.example", none, 1, 1, 2⟩,
        ⟨2, "b", "https://b.example", some "d", 2, 2, 5⟩] : List GoLink).map
          GoLink.shortcut).Nodup →
      ∃ pre post,
        ([⟨1, "a", "https://a.example", none, 1, 1, 2⟩,
          ⟨2, "b", "https://b.example", some "d", 2, 2, 5⟩] : List GoLink) =
          pre ++ ⟨1, "a", "https://a.example", none, 1, 1, 2⟩ :: post ∧
        (updateLink ⟨[⟨1, "a", "https://a.example", none, 1, 1, 2⟩,
            ⟨2, "b", "https://b.example", some "d", 2, 2, 5⟩], 3⟩
          "a" "https://new.example" (some "n") 7).2.rows =
          pre ++ ⟨1, "a", "https://new.example", some "n", 1, 7, 2⟩ :: post ∧
        (updateLink ⟨[⟨1, "a", "https://a.example", none, 1, 1, 2⟩,
            ⟨2, "b", "https://b.example", some "d", 2, 2, 5⟩], 3⟩
          "a" "https://new.example" (some "n") 7).2.nextId = 3) :=
  (updateLink_spec ⟨[⟨1, "a", "https://a.example", none, 1, 1, 2⟩,
      ⟨2, "b", "https://b.example", some "d", 2, 2, 5⟩], 3⟩
    "a" "https://new.example" (some "n") 7).2
    ⟨1, "a", "https://a.example", none, 1, 1, 2⟩ (by decide)

/-! ### C8 — aggregate statistics -/

/-- `find?` only looks at the predicate's value on members. -/
theorem find?_congr_mem {α : Type} (l : List α) (p q : α → Bool)
    (h : ∀ x ∈ l, p x = q x) : l.find? p = l.find? q := by
  induction l with
  | nil => rfl
  | cons a l ih =>
    rw [List.find?_cons, List.find?_cons, h a (List.mem_cons_self a l)]
    cases q a with
    | true => rfl
    | false => exact ih (fun x hx => h x (List.mem_cons_of_mem a hx))

/-- The click-count reduction is the sum of the click counts, for any
accumulator. -/
theorem totalClicksOf_go (links : List GoLink) (acc : Nat) :
    links.foldl (fun sum link => sum + link.click_count) acc =
      acc + (links.map GoLink.click_count).sum := by
  induction links generalizing acc with
  | nil => simp
  | cons a l ih =>
    rw [List.foldl_cons, ih, List.map_cons, List.sum_cons]
    omega

/-- The comparator of the stats sort is transitive. -/
theorem clickCountDesc_trans : ∀ a b c : GoLink, clickCountDesc a b = true →
    clickCountDesc b c = true → clickCountDesc a c = true := by
  intro a b c hab hbc
  simp only [clickCountDesc, decide_eq_true_eq] at *
  omega

/-- The comparator of the stats sort is total. -/
theorem clickCountDesc_total : ∀ a b : GoLink,
    (clickCountDesc a b || clickCountDesc b a) = true := by
  intro a b
  simp only [clickCountDesc, Bool.or_eq_true, decide_eq_true_eq]
  omega

/-- The head of the stable descending sort by click count is the first
record of the input attaining the maximum click count. -/
theorem mostClickedOf_eq_find? (links : List GoLink) :
    mostClickedOf links =
      links.find? (fun r => links.all (fun s => decide (s.click_count ≤ r.click_count))) := by
  induction links with
  | nil => simp [mostClickedOf]
  | cons a l ih =>
    obtain ⟨l₁, l₂, h₁, h₂, h₃⟩ :=
      List.mergeSort_cons clickCountDesc_trans clickCountDesc_total a l
    cases l₁ with
    | nil =>
      rw [List.nil_append] at h₁
      have hsorted := List.sorted_mergeSort clickCountDesc_trans clickCountDesc_total (a :: l)
      rw [h₁] at hsorted
      have hperm := List.mergeSort_perm (a :: l) clickCountDesc
      rw [h₁] at hperm
      have hl₂ : l₂.Perm l := hperm.cons_inv
      have hmax : ∀ s ∈ l, s.click_count ≤ a.click_count := by
        intro s hs
        have hs₂ : s ∈ l₂ := hl₂.symm.subset hs
        have := List.rel_of_pairwise_cons hsorted hs₂
        simpa [clickCountDesc] using this
      have hPa : ((a :: l).all (fun s => decide (s.click_count ≤ a.click_count))) = true := by
        rw [List.all_eq_true]
        intro s hs
        rcases List.mem_cons.mp hs with hsa | hsl
        · subst hsa; simp
        · simpa using hmax s hsl
      unfold mostClickedOf
      rw [h₁, List.find?_cons]
      simp [hPa]
    | cons b t =>
      have hhead : l.mergeSort clickCountDesc = b :: (t ++ l₂) := by
        rw [h₂]; rfl
      have hfind : l.find?
          (fun r => l.all (fun s => decide (s.click_count ≤ r.click_count))) = some b := by
        rw [← ih]
        unfold mostClickedOf
        rw [hhead]
        rfl
      have hbl : b ∈ l := List.mem_of_find?_eq_some hfind
      have hab : a.click_count < b.click_count := by
        have hba := h₃ b (List.mem_cons_self b t)
        simp [clickCountDesc] at hba
        omega
      have hPaf : ((a :: l).all (fun s => decide (s.click_count ≤ a.click_count))) = false := by
        cases hbool : ((a :: l).all (fun s => decide (s.click_count ≤ a.click_count))) with
        | false => rfl
        | true =>
          exfalso
          have hba := List.all_eq_true.mp hbool b (List.mem_cons_of_mem a hbl)
          simp at hba
          omega
      have hcongr : ∀ r ∈ l,
          ((a :: l).all (fun s => decide (s.click_count ≤ r.click_count))) =
          (l.all (fun s => decide (s.click_count ≤ r.click_count))) := by
        intro r hr
        cases hq : (l.all (fun s => decide (s.click_count ≤ r.click_count))) with
        | false =>
          rw [List.all_cons, hq, Bool.and_false]
        | true =>
          have hbr := List.all_eq_true.mp hq b hbl
          simp only [decide_eq_true_eq] at hbr
          rw [List.all_cons, hq, Bool.and_true]
          simp only [decide_eq_true_eq]
          omega
      unfold mostClickedOf
      rw [h₁, List.cons_append, List.head?_cons, List.find?_cons]
      simp only [hPaf]
      rw [find?_congr_mem l _ _ hcongr, hfind]

/-- C8: `computeStats` reports the number of records, `totalClicks` equal to
the sum of `click_count` over all records, and `mostClicked` equal to the
first record of the input attaining the maximum click count (so ties go to
the record encountered first in the input ordering) — in particular `none`
exactly on zero records, since `find?` of the maximality test misses only
then. -/
theorem computeStats_spec (links : List GoLink) :
    (computeStats links).totalLinks = links.length ∧
    (computeStats links).totalClicks = (links.map GoLink.click_count).sum ∧
    (computeStats links).mostClicked =
      links.find? (fun r => links.all (fun s => decide (s.click_count ≤ r.click_count))) := by
  refine ⟨rfl, ?_, mostClickedOf_eq_find? links⟩
  show totalClicksOf links = _
  rw [totalClicksOf, totalClicksOf_go links 0, Nat.zero_add]

/-! ### C10 — empty description is coerced to absent -/

/-- C10: the `description || null` coercion makes an empty-string description
argument indistinguishable from an omitted one, for both `addLink` and
`updateLink`; and on a store with no empty-string description (the only
stores these operations produce), no operation result — hence no later
`getLink` — can surface `some ""` as a description. -/
theorem description_empty_coerced (db : GoLinksDB) (sc u : String) (now : Nat)
    (h : ∀ r ∈ db.rows, r.description ≠ some "") :
    addLink db sc u (some "") now = addLink db sc u none now ∧
    updateLink db sc u (some "") now = updateLink db sc u none now ∧
    (∀ d r, r ∈ (addLink db sc u d now).2.rows → r.description ≠ some "") ∧
    (∀ d r, r ∈ (updateLink db sc u d now).2.rows → r.description ≠ some "") ∧
    (∀ d sc' r, getLink (addLink db sc u d now).2 sc' = some r →
      r.description ≠ some "") := by
  have htr : ∀ d : Option String, truthyString d ≠ some "" := by
    intro d
    cases d with
    | none => simp [truthyString]
    | some s =>
      by_cases hs : s = "" <;> simp [truthyString, hs]
  have haddmem : ∀ d r, r ∈ (addLink db sc u d now).2.rows → r.description ≠ some "" := by
    intro d r hr
    rw [addLink] at hr
    by_cases hany : (db.rows.any (fun x => x.shortcut == sc)) = true
    · rw [if_pos hany] at hr
      exact h r hr
    · rw [if_neg hany] at hr
      replace hr : r ∈ db.rows ++ [newLink db sc u d now] := hr
      rw [List.mem_append] at hr
      rcases hr with hr | hr
      · exact h r hr
      · have hrn : r = newLink db sc u d now := by simpa using hr
        rw [hrn]
        exact htr d
  refine ⟨?_, ?_, haddmem, ?_, ?_⟩
  · have : truthyString (some "") = truthyString none := by simp [truthyString]
    rw [addLink, addLink, newLink, newLink, this]
  · have : truthyString (some "") = truthyString none := by simp [truthyString]
    rw [updateLink, updateLink, this]
  · intro d r hr
    rw [updateLink] at hr
    simp only [List.mem_map] at hr
    obtain ⟨x, hx, hxr⟩ := hr
    by_cases hxsc : (x.shortcut == sc) = true
    · rw [← hxr]
      simp only [hxsc, if_true]
      exact htr d
    · rw [← hxr]
      simp only [hxsc, if_false, Bool.not_eq_true]
      exact h x hx
  · intro d sc' r hg
    unfold getLink at hg
    exact haddmem d r (List.mem_of_find?_eq_some hg)

/-- Witness for C10: on the empty store, adding with an empty-string
description equals adding with none, and likewise for update. -/
theorem description_empty_coerced_witness :
    addLink ⟨[], 1⟩ "gh" "https://github.com" (some "") 7 =
      addLink ⟨[], 1⟩ "gh" "https://github.com" none 7 ∧
    updateLink ⟨[], 1⟩ "gh" "https://github.com" (some "") 7 =
      updateLink ⟨[], 1⟩ "gh" "https://github.com" none 7 :=
  ⟨(description_empty_coerced ⟨[], 1⟩ "gh" "https://github.com" 7 (by simp)).1,
   (description_empty_coerced ⟨[], 1⟩ "gh" "https://github.com" 7 (by simp)).2.1⟩
